import Mathlib

/-!
Shallow embedding of the city-pop MIDI progression generator
(class `EnhancedCityPopGenerator` and the exported `generateAndDownloadMidi`).

Conventions of the embedding:
* JS `Math.random()` is modelled as an explicit stream `r : Nat → ℚ` of
  draws together with a counter `k : Nat`; every call to the random source
  consumes one stream position, in exactly the order the source draws them.
  Valid streams produce values in `[0, 1)` (`ValidRand`).
* `Date.now()` is an explicit `now : Nat` argument.
* MIDI container serialization (`@tonejs/midi`) and blob-URL creation are
  external collaborators; the embedding returns the list of note events
  that the source hands to the encoder via `track.addNote`, grouped per
  chord, plus the tempo and name.
* The JS `Set<number>` used while building a voicing is modelled as a
  duplicate-free list in insertion order (`insertNote`); the list is
  sorted immediately inside `spreadVoicing`, so only the underlying set
  (and hence the length) is observable downstream.
* The exception thrown when the era/artist filter over the voicing catalog
  is empty (`voicingKeys[...]` yields `undefined`, and reading
  `.intervals` of `undefined` throws) is modelled by `generateMidiFile`
  returning `none`; the exported wrapper turns any failure into the single
  generic `GenError.generationFailed`, as the source's catch block does.
-/

-- The core `Rat` arithmetic operations are marked irreducible in this
-- toolchain, which blocks definitional evaluation of the embedding on
-- concrete inputs; restore the default transparency for this file.
set_option allowUnsafeReducibility true

attribute [local semireducible] Rat.inv Rat.mul Rat.add Rat.sub

namespace CityPop

inductive Era
  | e70s
  | early80s
  | mid80s
  | late80s
deriving DecidableEq, BEq

inductive Style
  | ballad
  | uptempo
  | fusion
deriving DecidableEq, BEq

structure ExtendedVoicing where
  intervals : List Int
  tensions : List Int
  alterations : List Int
  category : String
  weight : Rat
  era : Option Era := none
  artistStyle : Option String := none
deriving DecidableEq

structure ProgressionTemplate where
  roots : List Int
  weights : List Rat
  style : String
  complexity : Rat
deriving DecidableEq

structure GenOptions where
  era : Option Era := none
  style : Option Style := none
  artistInfluence : Option String := none
  complexity : Option Rat := none
deriving DecidableEq

structure StyleSetting where
  tempoMin : Rat
  tempoMax : Rat
  velMin : Rat
  velMax : Rat
  swingFactor : Rat
deriving DecidableEq

structure NoteEvent where
  midi : Int
  time : Rat
  duration : Rat
  velocity : Rat
deriving DecidableEq

structure GenOut where
  chords : List (List NoteEvent)
  tempo : Rat
  name : String
deriving DecidableEq

inductive GenError
  | generationFailed
deriving DecidableEq

structure DownloadResult where
  filename : String
deriving DecidableEq

/-- The voicing catalog, in source (insertion) order; `Object.keys` on the
JS record enumerates keys in this order. -/
def voicings : List (String × ExtendedVoicing) :=
  [("maj9",
    { intervals := [0, 4, 7, 11, 14], tensions := [9, 13], alterations := [8, 15],
      category := "citypop", weight := 1, era := some .early80s }),
   ("maj7_13",
    { intervals := [0, 4, 7, 11, 21], tensions := [9, 13], alterations := [8, 15],
      category := "citypop", weight := 4/5, era := some .mid80s }),
   ("min11",
    { intervals := [0, 3, 7, 10, 14, 17], tensions := [15, 22], alterations := [8],
      category := "citypop", weight := 7/10, era := some .early80s }),
   ("maj9_13",
    { intervals := [0, 4, 7, 11, 14, 21], tensions := [13, 15], alterations := [8, 22],
      category := "jazz", weight := 9/10, artistStyle := some "Tatsuro Yamashita" }),
   ("maj7_9_13",
    { intervals := [0, 4, 7, 11, 14, 21], tensions := [13, 15, 22], alterations := [8, 15],
      category := "ballad", weight := 7/10, artistStyle := some "Mariya Takeuchi" }),
   ("kadomatsu_fusion",
    { intervals := [0, 4, 7, 10, 15, 21], tensions := [9, 13, 15], alterations := [8, 22],
      category := "fusion", weight := 4/5, artistStyle := some "Toshiki Kadomatsu" }),
   ("anri_pop",
    { intervals := [0, 4, 7, 11, 14], tensions := [9, 13], alterations := [15],
      category := "citypop", weight := 17/20, artistStyle := some "Anri" })]

/-- The first progression template (style "standard"). -/
def standardTemplate : ProgressionTemplate :=
  { roots := [0, 5, 3, 4], weights := [1, 4/5, 7/10, 9/10],
    style := "standard", complexity := 7/10 }

def progressionTemplates : List ProgressionTemplate :=
  [standardTemplate,
   { roots := [0, 5, 1, 4], weights := [1, 7/10, 4/5, 9/10],
     style := "jazz", complexity := 4/5 },
   { roots := [3, 4, 0, 5, 1], weights := [4/5, 9/10, 1, 7/10, 4/5],
     style := "fusion", complexity := 9/10 },
   { roots := [0, 2, 5, 1], weights := [1, 3/5, 7/10, 4/5],
     style := "ballad", complexity := 3/5 }]

def styleSettings : Style → StyleSetting
  | .ballad => { tempoMin := 65, tempoMax := 80, velMin := 60, velMax := 85, swingFactor := 1/5 }
  | .uptempo => { tempoMin := 120, tempoMax := 135, velMin := 75, velMax := 95, swingFactor := 2/5 }
  | .fusion => { tempoMin := 90, tempoMax := 110, velMin := 70, velMax := 90, swingFactor := 3/10 }

abbrev RandStream := Nat → Rat

/-- Valid random streams: every draw lies in `[0, 1)`, like `Math.random()`. -/
def ValidRand (r : RandStream) : Prop := ∀ n, 0 ≤ r n ∧ r n < 1

/-- `Math.floor` of a nonnegative quantity used as an array index. -/
def jsFloorNat (q : Rat) : Nat := (Rat.floor q).toNat

/-- `Math.round`: round half toward positive infinity. -/
def jsRound (q : Rat) : Int := Rat.floor (q + 1/2)

/-- `Set.add` on the insertion-ordered duplicate-free list model. -/
def insertNote (l : List Int) (n : Int) : List Int := if n ∈ l then l else l ++ [n]

/-- JS `array.sort((a, b) => a - b)`, ascending. -/
def sortAsc (l : List Int) : List Int := List.insertionSort (fun a b => a ≤ b) l

/-- The global range clamp of `spreadVoicing`: below 36 up an octave,
above 84 down an octave. -/
def clampPitch (n : Int) : Int := if n < 36 then n + 12 else if n > 84 then n - 12 else n

/-- `Math.max(...spread)`; the source never applies it to an empty array
(the bass note keeps every chord nonempty), `0` is an arbitrary default. -/
def maxPitch : List Int → Int
  | [] => 0
  | x :: xs => xs.foldl max x

/-- `this.options.style || 'uptempo'`. -/
def activeStyle (o : GenOptions) : Style := o.style.getD .uptempo

def styleName : Style → String
  | .ballad => "ballad"
  | .uptempo => "uptempo"
  | .fusion => "fusion"

def activeStyleName (o : GenOptions) : String := styleName (activeStyle o)

def eraName : Era → String
  | .e70s => "70s"
  | .early80s => "early80s"
  | .mid80s => "mid80s"
  | .late80s => "late80s"

/-- `this.options.style === 'ballad' ? 3 : 2` in `spreadVoicing`. -/
def minSpacingOf (o : GenOptions) : Int := if o.style = some .ballad then 3 else 2

/-- `this.options.style === 'fusion' ? 24 : 12` in `spreadVoicing`. -/
def maxSpacingOf (o : GenOptions) : Rat := if o.style = some .fusion then 24 else 12

def adjustNoteForEra (o : GenOptions) (note : Int) (r : RandStream) (k : Nat) : Int × Nat :=
  match o.era with
  | some .e70s => (note - (if r k < 3/10 then 12 else 0), k + 1)
  | some .mid80s => (note + (if r k < 2/5 then 12 else 0), k + 1)
  | _ => (note, k)

def getEraTensionProbability (o : GenOptions) : Rat :=
  match o.era with
  | some .e70s => 1/2
  | some .early80s => 7/10
  | some .mid80s => 9/10
  | some .late80s => 3/5
  | none => 7/10

/-- The bass-octave choice (the source's misleadingly named
`getBassProbability` returns the octave offset, not a probability). -/
def getBassProbability (o : GenOptions) (r : RandStream) (k : Nat) : Int × Nat :=
  match o.era with
  | some .e70s => (12, k)
  | some .mid80s => ((if r k < 1/2 then 24 else 12), k + 1)
  | _ => ((if r k < 3/10 then 24 else 12), k + 1)

/-- Helper for the "Mariya Takeuchi" branch of `applyArtistModifications`.
The source body is `notes.forEach(note => { if (note - root > 12) notes.add(note - 12); })`;
JS `Set.forEach` also visits elements appended during iteration, so the
loop computes the downward-octave closure: starting from `n`, it keeps
adding `n - 12, n - 24, ...` while the previous element is still more
than 12 above `root`.  `chainDown root n` lists the elements this closure
contributes for a single starting note `n`; insertion order differs from
the JS set's, which is unobservable because the set is sorted before any
order-sensitive use. -/
def chainDown (root n : Int) : List Int :=
  if h : 12 < n - root then (n - 12) :: chainDown root (n - 12) else []
termination_by (n - root).toNat
decreasing_by
  simp_wf
  omega

def applyArtistModifications (o : GenOptions) (root : Int) (notes : List Int) : List Int :=
  match o.artistInfluence with
  | some a =>
    if a = "Tatsuro Yamashita" then insertNote notes (root + 22)
    else if a = "Mariya Takeuchi" then
      notes.foldl (fun acc n => (chainDown root n).foldl insertNote acc) notes
    else if a = "Toshiki Kadomatsu" then insertNote (insertNote notes (root + 21)) (root + 15)
    else notes
  | none => notes

/-- The `voicing.intervals.forEach` loop of `createRichVoicing`:
each interval is added as `root + interval`, era-adjusted. -/
def addIntervals (o : GenOptions) (root : Int) :
    List Int → List Int → RandStream → Nat → List Int × Nat
  | [], acc, _, k => (acc, k)
  | iv :: ivs, acc, r, k =>
    let p := adjustNoteForEra o (root + iv) r k
    addIntervals o root ivs (insertNote acc p.1) r p.2

/-- The tension loop of `createRichVoicing`: `count` iterations, each
drawing once for the probability gate and (when the gate passes) once
more for the uniform choice of a tension from the template's list. -/
def addTensions (o : GenOptions) (root : Int) (tensions : List Int) :
    Nat → List Int → RandStream → Nat → List Int × Nat
  | 0, acc, _, k => (acc, k)
  | n + 1, acc, r, k =>
    if r k < getEraTensionProbability o then
      let t := tensions.getD (jsFloorNat (r (k + 1) * tensions.length)) 0
      addTensions o root tensions n (insertNote acc (root + t)) r (k + 2)
    else
      addTensions o root tensions n acc r (k + 1)

/-- The pre-spread part of `createRichVoicing`: base intervals, tensions,
artist modifications (which run when `voicing.artistStyle ===
this.options.artistInfluence`; note both being `undefined` counts as
equal in JS, modelled by `Option` equality), and the bass note. -/
def richNotes (o : GenOptions) (root : Int) (v : ExtendedVoicing) (complexity : Rat)
    (r : RandStream) (k : Nat) : List Int × Nat :=
  let p1 := addIntervals o root v.intervals [] r k
  let tCount := (Rat.floor (complexity * (if o.era = some .mid80s then 3 else 2))).toNat
  let p2 := addTensions o root v.tensions tCount p1.1 r p1.2
  let withArtist :=
    if v.artistStyle = o.artistInfluence then applyArtistModifications o root p2.1 else p2.1
  let pb := getBassProbability o r p2.2
  (insertNote withArtist (root - pb.1), pb.2)

/-- Tail of the in-place minimum-spacing loop: `prev` is the already
processed previous element (`spread[i-1]`, possibly raised). -/
def spacingGo (minS prev : Int) : List Int → List Int
  | [] => []
  | y :: ys =>
    let y2 := if y - prev < minS then y + 12 else y
    y2 :: spacingGo minS y2 ys

/-- The minimum-spacing pass of `spreadVoicing`
(`for i = 1...: if (spread[i] - spread[i-1] < minSpacing) spread[i] += 12`). -/
def spacingPass (minS : Int) : List Int → List Int
  | [] => []
  | x :: xs => x :: spacingGo minS x xs

/-- The artist-specific adjustments inside `spreadVoicing`.  An artist
string other than the two named ones (including the empty string, which
is falsy in JS) is a no-op. -/
def artistSpread (o : GenOptions) (maxS : Rat) (spread : List Int)
    (r : RandStream) (k : Nat) : List Int × Nat :=
  match o.artistInfluence with
  | some a =>
    if a = "Tatsuro Yamashita" then
      if r k < 1/2 then (spread ++ [maxPitch spread + 12], k + 1) else (spread, k + 1)
    else if a = "Mariya Takeuchi" then
      let b := spread.headD 0
      (spread.map (fun (n : Int) => if (n : Rat) > (b : Rat) + maxS / (3/2) then n - 12 else n), k)
    else (spread, k)
  | none => (spread, k)

/-- The octave-doubling block of `spreadVoicing`:
`if (style === 'fusion' || Math.random() < 0.4)` short-circuits, so
fusion draws only for the doubled index; otherwise one draw decides the
gate and, when it passes, one more picks the index. -/
def doublingPass (o : GenOptions) (spread0 : List Int) (r : RandStream) (k : Nat) :
    List Int × Nat :=
  if o.style = some .fusion then
    (spread0 ++ [spread0.getD (jsFloorNat (r k * spread0.length)) 0 + 12], k + 1)
  else if r k < 2/5 then
    (spread0 ++ [spread0.getD (jsFloorNat (r (k + 1) * spread0.length)) 0 + 12], k + 2)
  else (spread0, k + 1)

/-- The era-specific adjustment block of `spreadVoicing`; `spread[0]`
inside the JS map callbacks still reads the pre-map array, whose head the
earlier passes never changed. -/
def eraSpread (o : GenOptions) (maxS : Rat) (l : List Int) : List Int :=
  let base : Int := l.headD 0
  if o.era = some .mid80s then
    l.map (fun (n : Int) => if (n : Rat) > (base : Rat) + maxS then n - 12 else n)
  else if o.era = some .e70s then
    l.map (fun (n : Int) => if (n : Rat) > (base : Rat) + maxS / 2 then n - 12 else n)
  else l

/-- The position-based tension-growth block of `spreadVoicing`, which
runs after the global range clamp. -/
def positionGrowth (position : Nat) (spread2 : List Int) (r : RandStream) (k : Nat) :
    List Int × Nat :=
  if position > 0 then
    if r k < (position : Rat) / 8 then
      (spread2 ++ [maxPitch spread2 + (if r (k + 1) < 1/2 then 12 else 7)], k + 2)
    else (spread2, k + 1)
  else (spread2, k)

def spreadVoicing (o : GenOptions) (notes : List Int) (position : Nat)
    (r : RandStream) (k : Nat) : List Int × Nat :=
  let spread0 := spacingPass (minSpacingOf o) (sortAsc notes)
  let pd := doublingPass o spread0 r k
  let spread1 := eraSpread o (maxSpacingOf o) pd.1
  let pa := artistSpread o (maxSpacingOf o) spread1 r pd.2
  let spread2 := pa.1.map clampPitch
  let pp := positionGrowth position spread2 r pa.2
  (sortAsc pp.1, pp.2)

def createRichVoicing (o : GenOptions) (root : Int) (v : ExtendedVoicing)
    (complexity : Rat) (position : Nat) (r : RandStream) (k : Nat) : List Int × Nat :=
  let p := richNotes o root v complexity r k
  spreadVoicing o p.1 position r p.2

/-- `prevNotes.reduce((prev, curr) => |curr - note| < |prev - note| ? curr : prev)`:
the first-encountered previous note at minimal absolute distance.  JS
`reduce` with no seed throws on an empty array; the source only runs it
when `prevNotes.length > 0`, the `[]` case value is arbitrary. -/
def closestTo (prev : List Int) (note : Int) : Int :=
  match prev with
  | [] => note
  | p :: ps => ps.foldl (fun acc c => if |c - note| < |acc - note| then c else acc) p

def smoothNote (prev : List Int) (note : Int) : Int :=
  let c := closestTo prev note
  if |c - note| > 7 then note + (if c > note then 12 else -12) else note

/-- The voice-leading block of `generateMidiFile`, guarded by
`prevNotes.length > 0`.  The in-place `forEach` writes only index `idx`
at step `idx` from the original value there, so it is a `map`. -/
def smoothChord (prev cur : List Int) : List Int :=
  if prev.isEmpty then cur else cur.map (smoothNote prev)

/-- `Math.floor(length / phi)` with `phi = (1 + sqrt 5)/2`, computed
exactly: the greatest `n` with `2n + L ≤ sqrt (5 L^2)`. -/
def tensionPeak (L : Nat) : Nat := (Nat.sqrt (5 * L ^ 2) - L) / 2

def tensionValue (L i : Nat) (x : Rat) : Rat :=
  let baseTension : Rat :=
    1/2 + 2/5 * (1 - |(i : Rat) - (tensionPeak L : Rat)| / ((L : Rat) / 2))
  max (3/10) (min (9/10) (baseTension + (x - 1/2) * (1/5)))

def generateTensionArc (L : Nat) (r : RandStream) (k : Nat) : List Rat × Nat :=
  ((List.range L).map fun i => tensionValue L i (r (k + i)), k + L)

def applySwing (o : GenOptions) (time : Rat) (r : RandStream) (k : Nat) : Rat × Nat :=
  let sf := (styleSettings (activeStyle o)).swingFactor
  (time + (r k * sf - sf / 2), k + 1)

/-- The per-note emission loop: for each note, one draw for the velocity,
one for the start-time jitter, one for the duration jitter, then
`track.addNote` with the pitch clamped to `[0, 127]` and the velocity
scaled by `1/127`. -/
def emitNotes (s : StyleSetting) :
    List Int → Rat → RandStream → Nat → List NoteEvent × Nat
  | [], _, _, k => ([], k)
  | n :: ns, chordStart, r, k =>
    let velocity := s.velMin + r k * (s.velMax - s.velMin)
    let noteTime := chordStart + (r (k + 1) - 1/2) * (1/100)
    let duration := 39/20 + (r (k + 2) - 1/2) * (1/10)
    let e : NoteEvent :=
      { midi := max 0 (min 127 n), time := noteTime, duration := duration,
        velocity := velocity / 127 }
    let p := emitNotes s ns chordStart r (k + 3)
    (e :: p.1, p.2)

/-- `Object.keys(this.voicings).filter(...)`: keep catalog entries
matching the configured era (when set) and artist influence (when set). -/
def voicingFilter (o : GenOptions) : List (String × ExtendedVoicing) :=
  voicings.filter fun kv =>
    (match o.era with
     | none => true
     | some e => kv.2.era == some e) &&
    (match o.artistInfluence with
     | none => true
     | some a => kv.2.artistStyle == some a)

/-- `progressionTemplates.filter(t => t.style === style || t.style === 'standard')`. -/
def validTemplates (o : GenOptions) : List ProgressionTemplate :=
  progressionTemplates.filter fun t => t.style == activeStyleName o || t.style == "standard"

/-- Uniform random choice among the style-valid progression templates. -/
def selectTemplate (o : GenOptions) (x : Rat) : ProgressionTemplate :=
  (validTemplates o).getD (jsFloorNat (x * (validTemplates o).length)) standardTemplate

/-- Default catalog entry for the (never taken with a valid stream and a
nonempty filter) out-of-range `getD` fallback. -/
def fallbackVoicing : ExtendedVoicing :=
  { intervals := [], tensions := [], alterations := [], category := "", weight := 0 }

/-- One iteration of the 8-step loop of `generateMidiFile`.  Returns the
chord's note events, the smoothed note list kept as `prevNotes`, and the
advanced draw counter; `none` models the exception thrown when the
era/artist voicing filter is empty (indexing past the empty key list
yields `undefined`, whose `.intervals` access throws). -/
def stepChord (o : GenOptions) (s : StyleSetting) (prog : ProgressionTemplate)
    (arc : List Rat) (i : Nat) (time : Rat) (prev : List Int)
    (r : RandStream) (k : Nat) : Option (List NoteEvent × List Int × Nat) :=
  let root : Int := 60 + prog.roots.getD (i % prog.roots.length) 0
  let keys := voicingFilter o
  if keys = [] then none
  else
    let selected := (keys.getD (jsFloorNat (r k * keys.length)) ("", fallbackVoicing)).2
    let complexity := arc.getD i 0 * (if prog.complexity = 0 then 1 else prog.complexity)
    let pn := createRichVoicing o root selected complexity i r (k + 1)
    let notes := smoothChord prev pn.1
    let ps := applySwing o time r pn.2
    let pe := emitNotes s notes ps.1 r ps.2
    some (pe.1, notes, pe.2)

/-- The loop `for (let i = 0; i < length; i++)` with `count` remaining
iterations, current index `i`, current `time`, and `prevNotes`. -/
def runSteps (o : GenOptions) (s : StyleSetting) (prog : ProgressionTemplate)
    (arc : List Rat) :
    Nat → Nat → Rat → List Int → RandStream → Nat → Option (List (List NoteEvent))
  | 0, _, _, _, _, _ => some []
  | n + 1, i, time, prev, r, k =>
    match stepChord o s prog arc i time prev r k with
    | none => none
    | some st =>
      match runSteps o s prog arc n (i + 1) (time + 2) st.2.1 r st.2.2 with
      | none => none
      | some rest => some (st.1 :: rest)

/-- The generated name: `citypop-<era||'standard'>-<style||'uptempo'>-<Date.now()>`. -/
def midiName (o : GenOptions) (now : Nat) : String :=
  "citypop-" ++ (match o.era with | none => "standard" | some e => eraName e) ++
    "-" ++ activeStyleName o ++ "-" ++ toString now

def generateMidiFile (o : GenOptions) (r : RandStream) (k : Nat) (now : Nat) :
    Option GenOut :=
  let s := styleSettings (activeStyle o)
  let tempo := s.tempoMin + r k * (s.tempoMax - s.tempoMin)
  let prog := selectTemplate o (r (k + 1))
  let pa := generateTensionArc 8 r (k + 2)
  match runSteps o s prog pa.1 8 0 0 [] r pa.2 with
  | none => none
  | some chords => some { chords := chords, tempo := tempo, name := midiName o now }

/-- The exported entry point: on success, a download descriptor whose
filename is `<name>-<Math.round(tempo)>bpm.mid`; any internal throw is
caught and re-signalled as the single generic failure. -/
def generateAndDownloadMidi (o : GenOptions) (r : RandStream) (k : Nat) (now : Nat) :
    Except GenError DownloadResult :=
  match generateMidiFile o r k now with
  | some out =>
    .ok { filename := out.name ++ "-" ++ toString (jsRound out.tempo) ++ "bpm.mid" }
  | none => .error .generationFailed

/-- The chord list of a generation result (`[]` for a failed run). -/
def chordsOf : Option GenOut → List (List NoteEvent)
  | none => []
  | some g => g.chords

/-- The tempo of a generation result (`0` for a failed run). -/
def tempoOf : Option GenOut → Rat
  | none => 0
  | some g => g.tempo

/-! ## Lemmas about the voice-leading smoother -/

/-- The seedless `reduce` of `closestTo` returns an element of the list,
of minimal absolute distance to `note`, and the first such element:
everything strictly before it in the list is strictly farther away. -/
lemma foldl_closest_spec (note : Int) :
    ∀ (l : List Int) (a : Int),
      (l.foldl (fun acc c => if |c - note| < |acc - note| then c else acc) a) ∈ a :: l ∧
      (∀ m ∈ a :: l,
        |(l.foldl (fun acc c => if |c - note| < |acc - note| then c else acc) a) - note| ≤
          |m - note|) ∧
      (∃ pre post,
        a :: l = pre ++
          (l.foldl (fun acc c => if |c - note| < |acc - note| then c else acc) a) :: post ∧
        ∀ m ∈ pre,
          |(l.foldl (fun acc c => if |c - note| < |acc - note| then c else acc) a) - note| <
            |m - note|) := by
  intro l
  induction l with
  | nil =>
    intro a
    refine ⟨List.mem_singleton.mpr rfl, ?_, [], [], rfl, by simp⟩
    intro m hm
    rw [List.mem_singleton] at hm
    simp [hm]
  | cons c l' ih =>
    intro a
    by_cases hlt : |c - note| < |a - note|
    · have hstep : (List.foldl (fun acc c => if |c - note| < |acc - note| then c else acc)
          a (c :: l')) =
          List.foldl (fun acc c => if |c - note| < |acc - note| then c else acc) c l' := by
        simp [List.foldl_cons, hlt]
      obtain ⟨hmem, hmin, pre, post, hdec, hpre⟩ := ih c
      rw [hstep]
      refine ⟨List.mem_cons_of_mem a hmem, ?_, a :: pre, post, ?_, ?_⟩
      · intro m hm
        rcases List.mem_cons.mp hm with h | h
        · subst h
          exact le_of_lt (lt_of_le_of_lt (hmin c (List.mem_cons_self _ _)) hlt)
        · exact hmin m h
      · rw [List.cons_append, ← hdec]
      · intro m hm
        rcases List.mem_cons.mp hm with h | h
        · subst h
          exact lt_of_le_of_lt (hmin c (List.mem_cons_self _ _)) hlt
        · exact hpre m h
    · have hstep : (List.foldl (fun acc c => if |c - note| < |acc - note| then c else acc)
          a (c :: l')) =
          List.foldl (fun acc c => if |c - note| < |acc - note| then c else acc) a l' := by
        simp [List.foldl_cons, hlt]
      obtain ⟨hmem, hmin, pre, post, hdec, hpre⟩ := ih a
      rw [hstep]
      have hle : |a - note| ≤ |c - note| := le_of_not_lt hlt
      refine ⟨?_, ?_, ?_⟩
      · rcases List.mem_cons.mp hmem with h | h
        · rw [h]; exact List.mem_cons_self _ _
        · exact List.mem_cons_of_mem _ (List.mem_cons_of_mem _ h)
      · intro m hm
        rcases List.mem_cons.mp hm with h | h
        · rw [h]
          exact hmin a (List.mem_cons_self _ _)
        · rcases List.mem_cons.mp h with h2 | h2
          · rw [h2]
            exact le_trans (hmin a (List.mem_cons_self _ _)) hle
          · exact hmin m (List.mem_cons_of_mem _ h2)
      · rcases pre with _ | ⟨p0, pre2⟩
        · rw [List.nil_append] at hdec
          obtain ⟨ha, hpost⟩ := List.cons.inj hdec
          exact ⟨[], c :: l', by rw [List.nil_append, ← ha], by simp⟩
        · rw [List.cons_append] at hdec
          obtain ⟨ha, hl'⟩ := List.cons.inj hdec
          have hstrict_a : |(List.foldl
              (fun acc c => if |c - note| < |acc - note| then c else acc) a l') - note| <
              |p0 - note| :=
            hpre p0 (List.mem_cons_self _ _)
          have hle2 : |p0 - note| ≤ |c - note| := by rw [← ha]; exact hle
          refine ⟨p0 :: c :: pre2, post, ?_, ?_⟩
          · rw [List.cons_append, List.cons_append, ← hl', ← ha]
          · intro m hm
            rcases List.mem_cons.mp hm with h | h
            · rw [h]; exact hstrict_a
            · rcases List.mem_cons.mp h with h2 | h2
              · rw [h2]; exact lt_of_lt_of_le hstrict_a hle2
              · exact hpre m (List.mem_cons_of_mem _ h2)

/-- C3: for every chord after the first and each of its notes, the
smoother finds the first-encountered previous-chord note at minimal
absolute distance; if that distance exceeds 7 the note moves an octave
toward it (`+12` when the closest previous note is higher, `-12`
otherwise), else stays; previous chord `[60]` sends note `70` to `58`;
and an empty previous chord (the first step) smooths nothing. -/
theorem claim_C3 (prev : List Int) (note : Int) (h : prev ≠ []) :
    (closestTo prev note ∈ prev ∧
      (∀ m ∈ prev, |closestTo prev note - note| ≤ |m - note|) ∧
      (∃ pre post, prev = pre ++ closestTo prev note :: post ∧
        ∀ m ∈ pre, |closestTo prev note - note| < |m - note|)) ∧
    smoothNote prev note =
      (if 7 < |closestTo prev note - note| then
        (if note < closestTo prev note then note + 12 else note - 12)
      else note) ∧
    smoothChord [60] [70] = [58] ∧
    (∀ cur, smoothChord [] cur = cur) := by
  match prev, h with
  | p :: ps, _ =>
    have hspec := foldl_closest_spec note ps p
    have hc : closestTo (p :: ps) note =
        ps.foldl (fun acc c => if |c - note| < |acc - note| then c else acc) p := rfl
    refine ⟨⟨?_, ?_, ?_⟩, ?_, by decide, fun cur => by simp [smoothChord]⟩
    · rw [hc]; exact hspec.1
    · rw [hc]; exact hspec.2.1
    · rw [hc]; exact hspec.2.2
    · unfold smoothNote
      rcases lt_or_le 7 |closestTo (p :: ps) note - note| with hgt | hle
      · rw [if_pos hgt, if_pos hgt]
        by_cases hcmp : closestTo (p :: ps) note > note
        · rw [if_pos hcmp, if_pos hcmp]
        · rw [if_neg hcmp, if_neg (by exact hcmp)]
          ring
      · rw [if_neg (not_lt.mpr hle), if_neg (not_lt.mpr hle)]

theorem claim_C3_witness :
    ([60] : List Int) ≠ [] ∧
    ((closestTo [60] 70 ∈ ([60] : List Int) ∧
      (∀ m ∈ ([60] : List Int), |closestTo [60] 70 - 70| ≤ |m - 70|) ∧
      (∃ pre post, ([60] : List Int) = pre ++ closestTo [60] 70 :: post ∧
        ∀ m ∈ pre, |closestTo [60] 70 - 70| < |m - 70|)) ∧
    smoothNote [60] 70 =
      (if 7 < |closestTo [60] 70 - 70| then
        (if 70 < closestTo [60] 70 then 70 + 12 else 70 - 12)
      else 70) ∧
    smoothChord [60] [70] = [58] ∧
    (∀ cur, smoothChord [] cur = cur)) :=
  ⟨by decide, claim_C3 [60] 70 (by decide)⟩

/-- C4 counterexample: for previous chord `[70]` and note `60` the
minimal distance is 10 > 7 and the closest previous note (70) is higher,
so the claim as stated would shift the note down to 48; the code shifts
it up to 72. -/
theorem claim_C4_counterexample :
    7 < |closestTo [70] 60 - 60| ∧ 60 < closestTo [70] 60 ∧
    smoothNote [70] 60 = 72 ∧ smoothNote [70] 60 ≠ 60 - 12 := by
  decide

/-- C4 (amended): when the minimal distance to the previous chord exceeds
7 semitones, the current note is shifted one octave UP if the closest
previous note is higher than it, and one octave DOWN otherwise. -/
theorem claim_C4 (prev : List Int) (note : Int) (hfar : 7 < |closestTo prev note - note|) :
    (note < closestTo prev note → smoothNote prev note = note + 12) ∧
    (closestTo prev note ≤ note → smoothNote prev note = note - 12) := by
  constructor
  · intro hup
    unfold smoothNote
    rw [if_pos hfar, if_pos hup]
  · intro hdown
    unfold smoothNote
    rw [if_pos hfar, if_neg (not_lt.mpr hdown)]
    ring

theorem claim_C4_witness :
    7 < |closestTo [60] 70 - 70| ∧ closestTo [60] 70 ≤ 70 ∧ smoothNote [60] 70 = 70 - 12 :=
  ⟨by decide, by decide, (claim_C4 [60] 70 (by decide)).2 (by decide)⟩

/-! ## Lemmas about the register spreader -/

lemma mem_sortAsc {n : Int} {l : List Int} : n ∈ sortAsc l ↔ n ∈ l := by
  unfold sortAsc
  exact List.mem_insertionSort _

/-- Every element the minimum-spacing tail loop produces is an input
element, possibly raised one octave. -/
lemma spacingGo_shape (minS : Int) :
    ∀ (l : List Int) (prev : Int), ∀ y ∈ spacingGo minS prev l,
      ∃ x ∈ l, y = x ∨ y = x + 12 := by
  intro l
  induction l with
  | nil => intro prev y hy; simp [spacingGo] at hy
  | cons z zs ih =>
    intro prev y hy
    rw [spacingGo] at hy
    rcases List.mem_cons.mp hy with h | h
    · refine ⟨z, List.mem_cons_self _ _, ?_⟩
      by_cases hz : z - prev < minS
      · right; rw [h, if_pos hz]
      · left; rw [h, if_neg hz]
    · obtain ⟨x, hx, hcase⟩ := ih _ y h
      exact ⟨x, List.mem_cons_of_mem _ hx, hcase⟩

lemma spacingPass_shape (minS : Int) (l : List Int) :
    ∀ y ∈ spacingPass minS l, ∃ x ∈ l, y = x ∨ y = x + 12 := by
  cases l with
  | nil => intro y hy; simp [spacingPass] at hy
  | cons z zs =>
    intro y hy
    rw [spacingPass] at hy
    rcases List.mem_cons.mp hy with h | h
    · exact ⟨z, List.mem_cons_self _ _, Or.inl h⟩
    · obtain ⟨x, hx, hcase⟩ := spacingGo_shape minS zs z y h
      exact ⟨x, List.mem_cons_of_mem _ hx, hcase⟩

lemma clampPitch_bounds {n : Int} (h1 : 24 ≤ n) (h2 : n ≤ 96) :
    36 ≤ clampPitch n ∧ clampPitch n ≤ 84 := by
  unfold clampPitch
  split_ifs <;> omega

lemma clampPitch_fixed {n : Int} (h1 : 36 ≤ n) (h2 : n ≤ 84) : clampPitch n = n := by
  unfold clampPitch
  split_ifs <;> omega

lemma doublingPass_skip (o : GenOptions) (l : List Int) (r : RandStream) (k : Nat)
    (hf : o.style ≠ some Style.fusion) (hd : 2/5 ≤ r k) :
    doublingPass o l r k = (l, k + 1) := by
  unfold doublingPass
  rw [if_neg hf, if_neg (not_lt.mpr hd)]

lemma eraSpread_none (o : GenOptions) (maxS : Rat) (l : List Int) (he : o.era = none) :
    eraSpread o maxS l = l := by
  unfold eraSpread
  rw [he]
  simp

lemma artistSpread_none (o : GenOptions) (maxS : Rat) (l : List Int) (r : RandStream)
    (k : Nat) (ha : o.artistInfluence = none) : artistSpread o maxS l r k = (l, k) := by
  unfold artistSpread
  rw [ha]

lemma positionGrowth_zero (l : List Int) (r : RandStream) (k : Nat) :
    positionGrowth 0 l r k = (l, k) := rfl

/-- Under the stated hypotheses the spreader reduces to sorting, the
spacing pass, and the clamp. -/
lemma spreadVoicing_plain (o : GenOptions) (notes : List Int) (r : RandStream) (k : Nat)
    (hf : o.style ≠ some Style.fusion) (he : o.era = none) (ha : o.artistInfluence = none)
    (hd : 2/5 ≤ r k) :
    spreadVoicing o notes 0 r k =
      (sortAsc ((spacingPass (minSpacingOf o) (sortAsc notes)).map clampPitch), k + 1) := by
  unfold spreadVoicing
  dsimp only
  rw [doublingPass_skip o _ r k hf hd]
  dsimp only
  rw [eraSpread_none o _ _ he, artistSpread_none o _ _ r _ ha]
  dsimp only
  rw [positionGrowth_zero]

/-- C5 (amended): re-applying the global range-clamp map to
`spreadVoicing`'s output changes nothing — every output pitch already
lies in `[36, 84]` — provided the run reaches no post-clamp additions and
no register-shifting branches: position 0 (so the position-growth append
after the clamp cannot fire), style not fusion and the doubling draw not
firing, no era or artist adjustment, and every input pitch in `[24, 84]`.
In general the claim fails (see the counterexample): the position-growth
step appends pitches after the clamp runs. -/
theorem claim_C5 (o : GenOptions) (notes : List Int) (r : RandStream) (k : Nat)
    (hf : o.style ≠ some Style.fusion) (he : o.era = none) (ha : o.artistInfluence = none)
    (hd : 2/5 ≤ r k) (hin : ∀ n ∈ notes, 24 ≤ n ∧ n ≤ 84) :
    (spreadVoicing o notes 0 r k).1.map clampPitch = (spreadVoicing o notes 0 r k).1 ∧
    ∀ n ∈ (spreadVoicing o notes 0 r k).1, 36 ≤ n ∧ n ≤ 84 := by
  rw [spreadVoicing_plain o notes r k hf he ha hd]
  have hout : ∀ n ∈ sortAsc ((spacingPass (minSpacingOf o) (sortAsc notes)).map clampPitch),
      36 ≤ n ∧ n ≤ 84 := by
    intro n hn
    rw [mem_sortAsc] at hn
    obtain ⟨m, hm, hmn⟩ := List.mem_map.mp hn
    obtain ⟨x, hx, hcase⟩ := spacingPass_shape (minSpacingOf o) (sortAsc notes) m hm
    have hxb := hin x (mem_sortAsc.mp hx)
    have hmb : 24 ≤ m ∧ m ≤ 96 := by rcases hcase with h | h <;> omega
    rw [← hmn]
    exact clampPitch_bounds hmb.1 hmb.2
  refine ⟨?_, hout⟩
  have : ∀ n ∈ sortAsc ((spacingPass (minSpacingOf o) (sortAsc notes)).map clampPitch),
      clampPitch n = n := fun n hn => clampPitch_fixed (hout n hn).1 (hout n hn).2
  calc (sortAsc ((spacingPass (minSpacingOf o) (sortAsc notes)).map clampPitch)).map clampPitch
      = (sortAsc ((spacingPass (minSpacingOf o) (sortAsc notes)).map clampPitch)).map id :=
        List.map_congr_left this
    _ = _ := List.map_id _

theorem claim_C5_witness :
    (({} : GenOptions).style ≠ some Style.fusion) ∧
    (2/5 : Rat) ≤ (fun _ : Nat => (1 : Rat)/2) 0 ∧
    (∀ n ∈ ([24, 84] : List Int), 24 ≤ n ∧ n ≤ 84) ∧
    ((spreadVoicing {} [24, 84] 0 (fun _ : Nat => (1 : Rat)/2) 0).1.map clampPitch =
      (spreadVoicing {} [24, 84] 0 (fun _ : Nat => (1 : Rat)/2) 0).1 ∧
    ∀ n ∈ (spreadVoicing {} [24, 84] 0 (fun _ : Nat => (1 : Rat)/2) 0).1, 36 ≤ n ∧ n ≤ 84) :=
  ⟨by decide, by norm_num, by decide,
    claim_C5 {} [24, 84] (fun _ => (1 : Rat)/2) 0 (by decide) rfl rfl (by norm_num) (by decide)⟩

/-- C5 counterexample: with no era/artist, position 1, a doubling draw
that does not fire and a position draw that does, input `[80]` yields
output `[80, 92]`: 92 lies outside `[36, 84]` and re-applying the clamp
changes the output. -/
theorem claim_C5_counterexample :
    (spreadVoicing {} [80] 1 (fun n => if n = 0 then (1 : Rat)/2 else 0) 0).1 = [80, 92] ∧
    (spreadVoicing {} [80] 1 (fun n => if n = 0 then (1 : Rat)/2 else 0) 0).1.map clampPitch ≠
      (spreadVoicing {} [80] 1 (fun n => if n = 0 then (1 : Rat)/2 else 0) 0).1 := by
  decide

/-! ## Lemmas about the composition driver -/

/-- `generateMidiFile` is the driver loop's result packaged with the
tempo draw and the generated name. -/
lemma generateMidiFile_eq (o : GenOptions) (r : RandStream) (k now : Nat) :
    generateMidiFile o r k now =
      Option.map
        (fun chords =>
          { chords := chords,
            tempo := (styleSettings (activeStyle o)).tempoMin +
              r k * ((styleSettings (activeStyle o)).tempoMax -
                (styleSettings (activeStyle o)).tempoMin),
            name := midiName o now })
        (runSteps o (styleSettings (activeStyle o)) (selectTemplate o (r (k + 1)))
          (generateTensionArc 8 r (k + 2)).1 8 0 0 [] r (generateTensionArc 8 r (k + 2)).2) := by
  simp only [generateMidiFile]
  cases runSteps o (styleSettings (activeStyle o)) (selectTemplate o (r (k + 1)))
      (generateTensionArc 8 r (k + 2)).1 8 0 0 [] r (generateTensionArc 8 r (k + 2)).2 <;> rfl

/-- Every event the emission loop produces carries a clamped pitch. -/
lemma emitNotes_midi (s : StyleSetting) (r : RandStream) :
    ∀ (ns : List Int) (cs : Rat) (k : Nat),
      ∀ e ∈ (emitNotes s ns cs r k).1, 0 ≤ e.midi ∧ e.midi ≤ 127 := by
  intro ns
  induction ns with
  | nil => intro cs k e he; simp [emitNotes] at he
  | cons n ns ih =>
    intro cs k e he
    simp only [emitNotes] at he
    rcases List.mem_cons.mp he with h | h
    · rw [h]
      refine ⟨le_max_left 0 _, max_le (by norm_num) (min_le_left _ _)⟩
    · exact ih cs (k + 3) e h

/-- Every event a successful step emits carries a clamped pitch. -/
lemma stepChord_midi (o : GenOptions) (s : StyleSetting) (prog : ProgressionTemplate)
    (arc : List Rat) (r : RandStream) (i : Nat) (time : Rat) (prev : List Int) (k : Nat)
    (st : List NoteEvent × List Int × Nat)
    (h : stepChord o s prog arc i time prev r k = some st) :
    ∀ e ∈ st.1, 0 ≤ e.midi ∧ e.midi ≤ 127 := by
  rw [stepChord] at h
  split at h
  · exact absurd h (by simp)
  · obtain rfl := Option.some.inj h
    exact fun e he => emitNotes_midi s r _ _ _ e he

/-- A successful driver loop returns one chord list per remaining
iteration, all of whose events carry clamped pitches. -/
lemma runSteps_spec (o : GenOptions) (s : StyleSetting) (prog : ProgressionTemplate)
    (arc : List Rat) (r : RandStream) :
    ∀ (n i : Nat) (time : Rat) (prev : List Int) (k : Nat) (l : List (List NoteEvent)),
      runSteps o s prog arc n i time prev r k = some l →
      l.length = n ∧ ∀ c ∈ l, ∀ e ∈ c, 0 ≤ e.midi ∧ e.midi ≤ 127 := by
  intro n
  induction n with
  | zero =>
    intro i time prev k l h
    rw [runSteps] at h
    obtain rfl := Option.some.inj h
    exact ⟨rfl, by simp⟩
  | succ n ih =>
    intro i time prev k l h
    rw [runSteps] at h
    rcases hst : stepChord o s prog arc i time prev r k with _ | st
    · rw [hst] at h; exact absurd h (by simp)
    · simp only [hst] at h
      rcases hrec : runSteps o s prog arc n (i + 1) (time + 2) st.2.1 r st.2.2 with _ | rest
      · rw [hrec] at h; exact absurd h (by simp)
      · simp only [hrec] at h
        obtain rfl := Option.some.inj h
        obtain ⟨hlen, hrest⟩ := ih (i + 1) (time + 2) st.2.1 st.2.2 rest hrec
        refine ⟨by simp [hlen], ?_⟩
        intro c hc e he
        rcases List.mem_cons.mp hc with h2 | h2
        · exact stepChord_midi o s prog arc r i time prev k st hst e (h2 ▸ he)
        · exact hrest c h2 e he

/-- C1 counterexample: for the configuration with era `late80s` (and no
artist influence) the era/artist filter over the voicing catalog is
empty, generation throws, and no note events are emitted at all — so not
every configuration yields 8 chords of note events. -/
theorem claim_C1_counterexample :
    ¬ ∃ out, generateMidiFile { era := some Era.late80s } (fun _ => 0) 0 99 = some out ∧
      out.chords.length = 8 := by
  intro ⟨out, hout, _⟩
  rw [show generateMidiFile { era := some Era.late80s } (fun _ => 0) 0 99 = none by decide]
    at hout
  exact Option.noConfusion hout

/-- C1 (amended): on every run of `generateMidiFile` that succeeds (the
era/artist voicing filter is nonempty; era `late80s`, for example, makes
it empty and generation throw), the result contains note events for
exactly 8 chords, and every MIDI pitch value passed to the encoder lies
in `[0, 127]`. -/
theorem claim_C1 (o : GenOptions) (r : RandStream) (k now : Nat)
    (hs : (generateMidiFile o r k now).isSome) :
    (chordsOf (generateMidiFile o r k now)).length = 8 ∧
    ∀ c ∈ chordsOf (generateMidiFile o r k now), ∀ e ∈ c, 0 ≤ e.midi ∧ e.midi ≤ 127 := by
  rw [generateMidiFile_eq] at hs ⊢
  rcases hrun : runSteps o (styleSettings (activeStyle o)) (selectTemplate o (r (k + 1)))
      (generateTensionArc 8 r (k + 2)).1 8 0 0 [] r (generateTensionArc 8 r (k + 2)).2
    with _ | chords
  · rw [hrun] at hs; exact absurd hs (by simp)
  · obtain ⟨hlen, hev⟩ := runSteps_spec o (styleSettings (activeStyle o))
      (selectTemplate o (r (k + 1))) (generateTensionArc 8 r (k + 2)).1 r
      8 0 0 [] (generateTensionArc 8 r (k + 2)).2 chords hrun
    simp only [Option.map_some', chordsOf]
    exact ⟨hlen, hev⟩

theorem claim_C1_witness :
    (generateMidiFile {} (fun _ => 0) 0 5).isSome = true ∧
    ((chordsOf (generateMidiFile {} (fun _ => 0) 0 5)).length = 8 ∧
      ∀ c ∈ chordsOf (generateMidiFile {} (fun _ => 0) 0 5), ∀ e ∈ c,
        0 ≤ e.midi ∧ e.midi ≤ 127) :=
  ⟨by decide, claim_C1 {} (fun _ => 0) 0 5 (by decide)⟩

/-- C2: any internal failure is caught by the public entry point and
re-signalled as the single generic failure value, with no partial result;
and the failure branch is reachable: era `late80s` with no artist
influence filters the voicing catalog down to the empty list, and the
subsequent selection out of the empty collection makes generation throw. -/
theorem claim_C2 :
    (∀ (o : GenOptions) (r : RandStream) (k now : Nat),
      generateMidiFile o r k now = none →
      generateAndDownloadMidi o r k now = Except.error GenError.generationFailed) ∧
    voicingFilter { era := some Era.late80s } = [] ∧
    generateMidiFile { era := some Era.late80s } (fun _ => 0) 0 7 = none := by
  refine ⟨?_, by decide, by decide⟩
  intro o r k now h
  unfold generateAndDownloadMidi
  rw [h]

theorem claim_C2_witness :
    generateMidiFile { era := some Era.late80s } (fun _ => 0) 0 7 = none ∧
    generateAndDownloadMidi { era := some Era.late80s } (fun _ => 0) 0 7 =
      Except.error GenError.generationFailed :=
  ⟨by decide, claim_C2.1 _ _ _ _ (by decide)⟩

/-- C9 counterexample: for the configuration with era `late80s` the entry
point does not return a download descriptor at all (generation throws and
the generic failure is re-signalled), so not every configuration yields a
suggested filename. -/
theorem claim_C9_counterexample :
    ¬ ∃ res, generateAndDownloadMidi { era := some Era.late80s } (fun _ => 0) 0 42 =
      Except.ok res := by
  intro ⟨res, hres⟩
  rw [show generateAndDownloadMidi { era := some Era.late80s } (fun _ => 0) 0 42 =
      Except.error GenError.generationFailed from rfl] at hres
  exact Except.noConfusion hres

/-- C9 (amended): on every run where generation succeeds, the exposed
entry point returns the suggested filename
`citypop-<era-or-standard>-<style-or-uptempo>-<uniqueness token>-<rounded
tempo>bpm.mid`, with the era field falling back to "standard" and the
style field to "uptempo" when unset. -/
theorem claim_C9 (o : GenOptions) (r : RandStream) (k now : Nat)
    (hs : (generateMidiFile o r k now).isSome) :
    generateAndDownloadMidi o r k now =
      Except.ok
        { filename :=
            "citypop-" ++ (match o.era with | none => "standard" | some e => eraName e) ++
              "-" ++ (match o.style with | none => "uptempo" | some st => styleName st) ++
              "-" ++ toString now ++
              "-" ++ toString (jsRound (tempoOf (generateMidiFile o r k now))) ++
              "bpm.mid" } := by
  have hstyle : (match o.style with | none => "uptempo" | some st => styleName st) =
      activeStyleName o := by
    cases hos : o.style with
    | none => simp [hos, activeStyleName, activeStyle, styleName]
    | some st => simp [hos, activeStyleName, activeStyle]
  rw [hstyle]
  rcases hgen : generateMidiFile o r k now with _ | out
  · rw [hgen] at hs; exact absurd hs (by simp)
  · have hname : out.name = midiName o now := by
      rw [generateMidiFile_eq] at hgen
      rcases hrun : runSteps o (styleSettings (activeStyle o)) (selectTemplate o (r (k + 1)))
          (generateTensionArc 8 r (k + 2)).1 8 0 0 [] r (generateTensionArc 8 r (k + 2)).2
        with _ | chords
      · rw [hrun] at hgen; exact absurd hgen (by simp)
      · rw [hrun] at hgen
        obtain rfl := (Option.some.inj (by simpa using hgen)).symm
        rfl
    unfold generateAndDownloadMidi
    rw [hgen]
    dsimp only
    rw [hname]
    rfl

theorem claim_C9_witness :
    (generateMidiFile {} (fun _ => 0) 0 5).isSome = true ∧
    generateAndDownloadMidi {} (fun _ => 0) 0 5 =
      Except.ok
        { filename :=
            "citypop-" ++ (match ({} : GenOptions).era with
              | none => "standard" | some e => eraName e) ++
              "-" ++ (match ({} : GenOptions).style with
              | none => "uptempo" | some st => styleName st) ++
              "-" ++ toString 5 ++
              "-" ++ toString (jsRound (tempoOf (generateMidiFile {} (fun _ => 0) 0 5))) ++
              "bpm.mid" } :=
  ⟨by decide, claim_C9 {} (fun _ => 0) 0 5 (by decide)⟩

/-- `Math.floor(x * len)` for a unit draw and a singleton list is 0. -/
lemma jsFloorNat_eq_zero {x : Rat} (h0 : 0 ≤ x) (h1 : x < 1) : jsFloorNat x = 0 := by
  unfold jsFloorNat
  have hlow : (0 : Int) ≤ Rat.floor x := Rat.le_floor.mpr (by exact_mod_cast h0)
  have hhigh : ¬ ((1 : Int) ≤ Rat.floor x) := fun hge => by
    have : ((1 : Int) : Rat) ≤ x := Rat.le_floor.mp hge
    push_cast at this
    linarith
  omega

/-- C10: when the style is unset (or "uptempo"), the progression-template
filter keeps exactly the one "standard" template, so the random index is
taken over a singleton and the progression is deterministically the fixed
root sequence `[0, 5, 3, 4]` with complexity 0.7. -/
theorem claim_C10 (o : GenOptions) (x : Rat)
    (hstyle : o.style = none ∨ o.style = some Style.uptempo) (hx0 : 0 ≤ x) (hx1 : x < 1) :
    validTemplates o = [standardTemplate] ∧
    selectTemplate o x = standardTemplate ∧
    standardTemplate.roots = [0, 5, 3, 4] ∧
    standardTemplate.complexity = 7/10 := by
  have hasn : activeStyleName o = "uptempo" := by
    rcases hstyle with h | h <;> simp [activeStyleName, activeStyle, h, styleName]
  have hv : validTemplates o = [standardTemplate] := by
    unfold validTemplates
    rw [hasn]
    rfl
  refine ⟨hv, ?_, rfl, rfl⟩
  unfold selectTemplate
  rw [hv]
  have hidx : jsFloorNat (x * (([standardTemplate] : List ProgressionTemplate).length : Nat)) =
      0 := by
    simp only [List.length_singleton, Nat.cast_one, mul_one]
    exact jsFloorNat_eq_zero hx0 hx1
  rw [hidx]
  rfl

theorem claim_C10_witness :
    (({} : GenOptions).style = none ∨ ({} : GenOptions).style = some Style.uptempo) ∧
    (0 : Rat) ≤ 1/2 ∧ ((1 : Rat)/2 < 1) ∧
    (validTemplates {} = [standardTemplate] ∧ selectTemplate {} (1/2) = standardTemplate ∧
      standardTemplate.roots = [0, 5, 3, 4] ∧ standardTemplate.complexity = 7/10) :=
  ⟨Or.inl rfl, by norm_num, by norm_num,
    claim_C10 {} (1/2) (Or.inl rfl) (by norm_num) (by norm_num)⟩

/-! ## Lemmas about the voicing builder -/

lemma insertNote_mem (l : List Int) (n : Int) : n ∈ insertNote l n := by
  unfold insertNote
  split_ifs with h
  · exact h
  · exact List.mem_append_right _ (List.mem_singleton.mpr rfl)

lemma insertNote_ne_nil (l : List Int) (n : Int) : insertNote l n ≠ [] := by
  intro hc
  have := insertNote_mem l n
  rw [hc] at this
  exact absurd this (List.not_mem_nil n)

lemma sortAsc_length (l : List Int) : (sortAsc l).length = l.length :=
  (List.perm_insertionSort _ l).length_eq

lemma sortAsc_ne_nil {l : List Int} (h : l ≠ []) : sortAsc l ≠ [] := by
  intro hc
  apply h
  have hlen := sortAsc_length l
  rw [hc] at hlen
  exact List.length_eq_zero.mp hlen.symm

lemma spacingPass_ne_nil (minS : Int) (l : List Int) (h : l ≠ []) :
    spacingPass minS l ≠ [] := by
  cases l with
  | nil => exact absurd rfl h
  | cons x xs => simp [spacingPass]

lemma artistSpread_ne_nil (o : GenOptions) (m : Rat) (l : List Int) (r : RandStream)
    (k : Nat) (h : l ≠ []) : (artistSpread o m l r k).1 ≠ [] := by
  unfold artistSpread
  cases hai : o.artistInfluence with
  | none => exact h
  | some a =>
    dsimp only
    by_cases ht : a = "Tatsuro Yamashita"
    · rw [if_pos ht]
      split_ifs <;> simp [h]
    · rw [if_neg ht]
      by_cases hm2 : a = "Mariya Takeuchi"
      · rw [if_pos hm2]
        simpa [List.map_eq_nil] using h
      · rw [if_neg hm2]
        exact h

lemma doublingPass_ne_nil (o : GenOptions) (l : List Int) (r : RandStream) (k : Nat)
    (h : l ≠ []) : (doublingPass o l r k).1 ≠ [] := by
  unfold doublingPass
  split_ifs <;> simp [h]

lemma eraSpread_ne_nil (o : GenOptions) (m : Rat) (l : List Int) (h : l ≠ []) :
    eraSpread o m l ≠ [] := by
  unfold eraSpread
  dsimp only
  split_ifs <;> simp [List.map_eq_nil, h]

lemma positionGrowth_ne_nil (p : Nat) (l : List Int) (r : RandStream) (k : Nat)
    (h : l ≠ []) : (positionGrowth p l r k).1 ≠ [] := by
  unfold positionGrowth
  split_ifs <;> simp [h]

/-- The register spreader never empties a chord. -/
lemma spreadVoicing_ne_nil (o : GenOptions) (notes : List Int) (pos : Nat)
    (r : RandStream) (k : Nat) (h : notes ≠ []) :
    (spreadVoicing o notes pos r k).1 ≠ [] := by
  have h2 := spacingPass_ne_nil (minSpacingOf o) _ (sortAsc_ne_nil h)
  have h3 := doublingPass_ne_nil o _ r k h2
  have h4 := eraSpread_ne_nil o (maxSpacingOf o) _ h3
  have h5 := artistSpread_ne_nil o (maxSpacingOf o) _ r
    (doublingPass o (spacingPass (minSpacingOf o) (sortAsc notes)) r k).2 h4
  have h6 : ((artistSpread o (maxSpacingOf o)
      (eraSpread o (maxSpacingOf o)
        (doublingPass o (spacingPass (minSpacingOf o) (sortAsc notes)) r k).1) r
      (doublingPass o (spacingPass (minSpacingOf o) (sortAsc notes)) r k).2).1.map
        clampPitch) ≠ [] :=
    fun hc => h5 (List.map_eq_nil.mp hc)
  have h7 := positionGrowth_ne_nil pos _ r
    ((artistSpread o (maxSpacingOf o)
      (eraSpread o (maxSpacingOf o)
        (doublingPass o (spacingPass (minSpacingOf o) (sortAsc notes)) r k).1) r
      (doublingPass o (spacingPass (minSpacingOf o) (sortAsc notes)) r k).2).2) h6
  exact sortAsc_ne_nil h7

/-- The trichotomy of the bass-octave draw: 12 for the 70s era, a coin
flip between 24 and 12 for mid-80s, and 24 below probability 0.3,
else 12, otherwise. -/
lemma getBassProbability_val (o : GenOptions) (r : RandStream) (k : Nat) :
    ((getBassProbability o r k).1 = 12 ∨ (getBassProbability o r k).1 = 24) ∧
    (o.era = some Era.e70s → (getBassProbability o r k).1 = 12) ∧
    (o.era = some Era.mid80s →
      (getBassProbability o r k).1 = if r k < 1/2 then 24 else 12) ∧
    (o.era ≠ some Era.e70s → o.era ≠ some Era.mid80s →
      (getBassProbability o r k).1 = if r k < 3/10 then 24 else 12) := by
  unfold getBassProbability
  cases he : o.era with
  | none => refine ⟨?_, by simp [he], by simp [he], fun _ _ => rfl⟩ <;> split_ifs <;> simp
  | some e =>
    cases e <;>
      refine ⟨by split_ifs <;> simp, by simp [he], by simp [he], ?_⟩ <;>
        simp [he]

/-- The builder's final set always contains the bass note
`root - bassOctave` (and so is nonempty). -/
lemma richNotes_bass (o : GenOptions) (root : Int) (v : ExtendedVoicing) (c : Rat)
    (r : RandStream) (k : Nat) :
    ∃ m, root - (getBassProbability o r m).1 ∈ (richNotes o root v c r k).1 ∧
      (richNotes o root v c r k).1 ≠ [] := by
  unfold richNotes
  dsimp only
  exact ⟨_, insertNote_mem _ _, insertNote_ne_nil _ _⟩

/-- C8: the voicing builder adds one bass note `root - bassOctave`, with
`bassOctave` equal to 12 for the 70s era, 24 below a half draw else 12
for mid-80s, and 24 below a 0.3 draw else 12 otherwise (so always 12 or
24); consequently every chord is nonempty after bass addition, and the
spread chord the builder returns is nonempty as well. -/
theorem claim_C8 (o : GenOptions) (root : Int) (v : ExtendedVoicing) (c : Rat)
    (pos : Nat) (r : RandStream) (k : Nat) :
    (∀ k2, ((getBassProbability o r k2).1 = 12 ∨ (getBassProbability o r k2).1 = 24) ∧
      (o.era = some Era.e70s → (getBassProbability o r k2).1 = 12) ∧
      (o.era = some Era.mid80s →
        (getBassProbability o r k2).1 = if r k2 < 1/2 then 24 else 12) ∧
      (o.era ≠ some Era.e70s → o.era ≠ some Era.mid80s →
        (getBassProbability o r k2).1 = if r k2 < 3/10 then 24 else 12)) ∧
    (∃ m, root - (getBassProbability o r m).1 ∈ (richNotes o root v c r k).1) ∧
    (richNotes o root v c r k).1 ≠ [] ∧
    (createRichVoicing o root v c pos r k).1 ≠ [] := by
  obtain ⟨m, hmem, hne⟩ := richNotes_bass o root v c r k
  refine ⟨fun k2 => getBassProbability_val o r k2, ⟨m, hmem⟩, hne, ?_⟩
  unfold createRichVoicing
  exact spreadVoicing_ne_nil o _ pos r _ hne

/-- Every event the emission loop produces has a velocity that, scaled
back by 127, lies in the style's velocity range. -/
lemma emitNotes_velocity (s : StyleSetting) (r : RandStream) (hr : ValidRand r)
    (hvel : s.velMin ≤ s.velMax) :
    ∀ (ns : List Int) (cs : Rat) (k : Nat), ∀ e ∈ (emitNotes s ns cs r k).1,
      s.velMin ≤ e.velocity * 127 ∧ e.velocity * 127 ≤ s.velMax := by
  intro ns
  induction ns with
  | nil => intro cs k e he; simp [emitNotes] at he
  | cons n ns ih =>
    intro cs k e he
    simp only [emitNotes] at he
    rcases List.mem_cons.mp he with h | h
    · rw [h]
      dsimp only
      have hx := hr k
      have h127 : ((s.velMin + r k * (s.velMax - s.velMin)) / 127) * 127 =
          s.velMin + r k * (s.velMax - s.velMin) := by
        field_simp
      rw [h127]
      constructor
      · nlinarith [mul_nonneg hx.1 (sub_nonneg.mpr hvel)]
      · nlinarith [mul_nonneg (sub_nonneg.mpr (le_of_lt hx.2)) (sub_nonneg.mpr hvel)]
    · exact ih cs (k + 3) e h

lemma stepChord_velocity (o : GenOptions) (s : StyleSetting) (prog : ProgressionTemplate)
    (arc : List Rat) (r : RandStream) (hr : ValidRand r) (hvel : s.velMin ≤ s.velMax)
    (i : Nat) (time : Rat) (prev : List Int) (k : Nat) (st : List NoteEvent × List Int × Nat)
    (h : stepChord o s prog arc i time prev r k = some st) :
    ∀ e ∈ st.1, s.velMin ≤ e.velocity * 127 ∧ e.velocity * 127 ≤ s.velMax := by
  rw [stepChord] at h
  split at h
  · exact absurd h (by simp)
  · obtain rfl := Option.some.inj h
    exact fun e he => emitNotes_velocity s r hr hvel _ _ _ e he

lemma runSteps_velocity (o : GenOptions) (s : StyleSetting) (prog : ProgressionTemplate)
    (arc : List Rat) (r : RandStream) (hr : ValidRand r) (hvel : s.velMin ≤ s.velMax) :
    ∀ (n i : Nat) (time : Rat) (prev : List Int) (k : Nat) (l : List (List NoteEvent)),
      runSteps o s prog arc n i time prev r k = some l →
      ∀ c ∈ l, ∀ e ∈ c, s.velMin ≤ e.velocity * 127 ∧ e.velocity * 127 ≤ s.velMax := by
  intro n
  induction n with
  | zero =>
    intro i time prev k l h
    rw [runSteps] at h
    obtain rfl := Option.some.inj h
    simp
  | succ n ih =>
    intro i time prev k l h
    rw [runSteps] at h
    rcases hst : stepChord o s prog arc i time prev r k with _ | st
    · rw [hst] at h; exact absurd h (by simp)
    · simp only [hst] at h
      rcases hrec : runSteps o s prog arc n (i + 1) (time + 2) st.2.1 r st.2.2 with _ | rest
      · rw [hrec] at h; exact absurd h (by simp)
      · simp only [hrec] at h
        obtain rfl := Option.some.inj h
        intro c hc e he
        rcases List.mem_cons.mp hc with h2 | h2
        · exact stepChord_velocity o s prog arc r hr hvel i time prev k st hst e (h2 ▸ he)
        · exact ih (i + 1) (time + 2) st.2.1 st.2.2 rest hrec c h2 e he

/-- A step never fails when the voicing filter is nonempty. -/
lemma stepChord_isSome (o : GenOptions) (s : StyleSetting) (prog : ProgressionTemplate)
    (arc : List Rat) (r : RandStream) (hne : voicingFilter o ≠ [])
    (i : Nat) (time : Rat) (prev : List Int) (k : Nat) :
    ∃ st, stepChord o s prog arc i time prev r k = some st := by
  unfold stepChord
  dsimp only
  rw [if_neg hne]
  exact ⟨_, rfl⟩

/-- The driver loop never fails when the voicing filter is nonempty. -/
lemma runSteps_isSome (o : GenOptions) (s : StyleSetting) (prog : ProgressionTemplate)
    (arc : List Rat) (r : RandStream) (hne : voicingFilter o ≠ []) :
    ∀ (n i : Nat) (time : Rat) (prev : List Int) (k : Nat),
      ∃ l, runSteps o s prog arc n i time prev r k = some l := by
  intro n
  induction n with
  | zero => exact fun i t p k => ⟨[], rfl⟩
  | succ n ih =>
    intro i t p k
    obtain ⟨st, hst⟩ := stepChord_isSome o s prog arc r hne i t p k
    obtain ⟨l, hl⟩ := ih (i + 1) (t + 2) st.2.1 st.2.2
    refine ⟨st.1 :: l, ?_⟩
    rw [runSteps]
    simp only [hst, hl]

/-- C7: every run with configuration `{ style: "ballad" }` succeeds, its
tempo lies in [65, 80], every per-note velocity before the division by
127 lies in [60, 85], and the spreader's minimum-spacing threshold is 3. -/
theorem claim_C7 (r : RandStream) (k now : Nat) (hr : ValidRand r) :
    (generateMidiFile { style := some Style.ballad } r k now).isSome = true ∧
    65 ≤ tempoOf (generateMidiFile { style := some Style.ballad } r k now) ∧
    tempoOf (generateMidiFile { style := some Style.ballad } r k now) ≤ 80 ∧
    (∀ c ∈ chordsOf (generateMidiFile { style := some Style.ballad } r k now), ∀ e ∈ c,
      60 ≤ e.velocity * 127 ∧ e.velocity * 127 ≤ 85) ∧
    minSpacingOf { style := some Style.ballad } = 3 := by
  have hne : voicingFilter { style := some Style.ballad } ≠ [] := by decide
  have hset : styleSettings (activeStyle { style := some Style.ballad }) =
      { tempoMin := 65, tempoMax := 80, velMin := 60, velMax := 85, swingFactor := 1/5 } :=
    rfl
  obtain ⟨l, hl⟩ := runSteps_isSome { style := some Style.ballad }
    (styleSettings (activeStyle { style := some Style.ballad }))
    (selectTemplate { style := some Style.ballad } (r (k + 1)))
    (generateTensionArc 8 r (k + 2)).1 r hne 8 0 0 [] (generateTensionArc 8 r (k + 2)).2
  rw [generateMidiFile_eq, hl]
  have hx := hr k
  have hvels : (60 : Rat) ≤ 85 := by norm_num
  refine ⟨rfl, ?_, ?_, ?_, rfl⟩
  · simp only [Option.map_some', tempoOf, hset]
    try dsimp only
    nlinarith [hx.1]
  · simp only [Option.map_some', tempoOf, hset]
    try dsimp only
    nlinarith [mul_le_mul_of_nonneg_right (le_of_lt hx.2) (by norm_num : (0 : Rat) ≤ 80 - 65)]
  · simp only [Option.map_some', chordsOf]
    have := runSteps_velocity { style := some Style.ballad }
      (styleSettings (activeStyle { style := some Style.ballad }))
      (selectTemplate { style := some Style.ballad } (r (k + 1)))
      (generateTensionArc 8 r (k + 2)).1 r hr (by rw [hset]; exact hvels)
      8 0 0 [] (generateTensionArc 8 r (k + 2)).2 l hl
    rw [hset] at this
    exact this

theorem claim_C7_witness :
    ValidRand (fun _ : Nat => (0 : Rat)) ∧
    ((generateMidiFile { style := some Style.ballad } (fun _ => 0) 0 1).isSome = true ∧
    65 ≤ tempoOf (generateMidiFile { style := some Style.ballad } (fun _ => 0) 0 1) ∧
    tempoOf (generateMidiFile { style := some Style.ballad } (fun _ => 0) 0 1) ≤ 80 ∧
    (∀ c ∈ chordsOf (generateMidiFile { style := some Style.ballad } (fun _ => 0) 0 1),
      ∀ e ∈ c, 60 ≤ e.velocity * 127 ∧ e.velocity * 127 ≤ 85) ∧
    minSpacingOf { style := some Style.ballad } = 3) :=
  ⟨fun _ => ⟨le_refl 0, by norm_num⟩,
    claim_C7 (fun _ => 0) 0 1 (fun _ => ⟨le_refl 0, by norm_num⟩)⟩

/-! ## Lemmas about the tension arc -/

/-- The exact integer peak computed by `tensionPeak` is the floor of
`L / phi` with `phi = (1 + sqrt 5) / 2`, as the source computes with
`Math.floor(length / phi)`. -/
lemma tensionPeak_eq_floor (L : Nat) :
    (tensionPeak L : Int) = ⌊(L : Real) / ((1 + Real.sqrt 5) / 2)⌋ := by
  have hs1 : Nat.sqrt (5 * L ^ 2) ^ 2 ≤ 5 * L ^ 2 := Nat.sqrt_le' _
  have hs2 : 5 * L ^ 2 < (Nat.sqrt (5 * L ^ 2) + 1) ^ 2 := Nat.lt_succ_sqrt' _
  have hLs : L ≤ Nat.sqrt (5 * L ^ 2) := by
    have h1 : Nat.sqrt (L ^ 2) ≤ Nat.sqrt (5 * L ^ 2) := Nat.sqrt_le_sqrt (by nlinarith)
    simpa [Nat.sqrt_eq'] using h1
  have h5 : Real.sqrt 5 ^ 2 = 5 := Real.sq_sqrt (by norm_num)
  have hs5nonneg : (0 : Real) ≤ Real.sqrt 5 := Real.sqrt_nonneg 5
  have hsle : (Nat.sqrt (5 * L ^ 2) : Real) ≤ (L : Real) * Real.sqrt 5 := by
    have h1 : ((Nat.sqrt (5 * L ^ 2) : Real)) ^ 2 ≤ ((L : Real) * Real.sqrt 5) ^ 2 := by
      have h2 : ((Nat.sqrt (5 * L ^ 2) ^ 2 : Nat) : Real) ≤ ((5 * L ^ 2 : Nat) : Real) :=
        Nat.cast_le.mpr hs1
      push_cast at h2
      nlinarith [h2, h5]
    by_contra hcon
    push_neg at hcon
    nlinarith [h1, mul_nonneg (Nat.cast_nonneg (α := Real) L) hs5nonneg]
  have hlt : (L : Real) * Real.sqrt 5 < (Nat.sqrt (5 * L ^ 2) : Real) + 1 := by
    have h1 : ((L : Real) * Real.sqrt 5) ^ 2 < ((Nat.sqrt (5 * L ^ 2) : Real) + 1) ^ 2 := by
      have h2 : ((5 * L ^ 2 : Nat) : Real) < (((Nat.sqrt (5 * L ^ 2) + 1) ^ 2 : Nat) : Real) :=
        Nat.cast_lt.mpr hs2
      push_cast at h2
      nlinarith [h2, h5]
    by_contra hcon
    push_neg at hcon
    nlinarith [h1, Nat.cast_nonneg (α := Real) (Nat.sqrt (5 * L ^ 2)),
      mul_nonneg (Nat.cast_nonneg (α := Real) L) hs5nonneg]
  have hphi : (L : Real) / ((1 + Real.sqrt 5) / 2) = (L : Real) * (Real.sqrt 5 - 1) / 2 := by
    have hpos : (0 : Real) < 1 + Real.sqrt 5 := by linarith
    rw [div_eq_iff (by positivity)]
    ring_nf
    nlinarith [h5]
  rw [hphi, eq_comm, Int.floor_eq_iff]
  have hlow : (2 * tensionPeak L + L : Nat) ≤ Nat.sqrt (5 * L ^ 2) := by
    have := Nat.div_mul_le_self (Nat.sqrt (5 * L ^ 2) - L) 2
    unfold tensionPeak
    omega
  have hhigh : Nat.sqrt (5 * L ^ 2) ≤ 2 * tensionPeak L + L + 1 := by
    have := Nat.div_add_mod (Nat.sqrt (5 * L ^ 2) - L) 2
    have hmod : (Nat.sqrt (5 * L ^ 2) - L) % 2 < 2 := Nat.mod_lt _ (by norm_num)
    unfold tensionPeak
    omega
  have hlowR : ((2 * tensionPeak L + L : Nat) : Real) ≤ (Nat.sqrt (5 * L ^ 2) : Real) :=
    Nat.cast_le.mpr hlow
  have hhighR : (Nat.sqrt (5 * L ^ 2) : Real) ≤ ((2 * tensionPeak L + L + 1 : Nat) : Real) :=
    Nat.cast_le.mpr hhigh
  push_cast at hlowR hhighR
  constructor
  · push_cast
    nlinarith [hsle, hlowR]
  · push_cast
    nlinarith [hlt, hhighR]

/-- C6: `generateTensionArc L` returns exactly `L` values; the value at
index `i` is `clamp(0.5 + 0.4 * (1 - |i - peak| / (L / 2)) + noise, 0.3,
0.9)` for a noise value in `[-0.1, 0.1]` (the draw maps `[0,1)` into
`[-0.1, 0.1)`); every returned value lies in `[0.3, 0.9]`; and the peak
index is `floor(L / phi)` for the golden ratio `phi`. -/
theorem claim_C6 (L : Nat) (r : RandStream) (k : Nat) (hr : ValidRand r) :
    (generateTensionArc L r k).1.length = L ∧
    (∀ i, i < L → ∃ v, -(1/10) ≤ v ∧ v ≤ 1/10 ∧
      (generateTensionArc L r k).1.getD i 0 =
        max (3/10) (min (9/10)
          (1/2 + 2/5 * (1 - |(i : Rat) - (tensionPeak L : Rat)| / ((L : Rat) / 2)) + v))) ∧
    (∀ v ∈ (generateTensionArc L r k).1, 3/10 ≤ v ∧ v ≤ 9/10) ∧
    (tensionPeak L : Int) = ⌊(L : Real) / ((1 + Real.sqrt 5) / 2)⌋ := by
  refine ⟨by simp [generateTensionArc], ?_, ?_, tensionPeak_eq_floor L⟩
  · intro i hi
    refine ⟨(r (k + i) - 1/2) * (1/5), ?_, ?_, ?_⟩
    · have hx := hr (k + i)
      linarith [hx.1]
    · have hx := hr (k + i)
      linarith [hx.2]
    · have hgd : (generateTensionArc L r k).1.getD i 0 = tensionValue L i (r (k + i)) := by
        unfold generateTensionArc
        rw [List.getD_eq_getElem?_getD, List.getElem?_map, List.getElem?_range hi]
        rfl
      rw [hgd]
      rfl
  · intro v hv
    unfold generateTensionArc at hv
    obtain ⟨i, _, hvi⟩ := List.mem_map.mp hv
    rw [← hvi]
    unfold tensionValue
    constructor
    · exact le_max_left _ _
    · exact max_le (by norm_num) (min_le_left _ _)

theorem claim_C6_witness :
    ValidRand (fun _ : Nat => (0 : Rat)) ∧
    ((generateTensionArc 8 (fun _ => 0) 0).1.length = 8 ∧
    (∀ i, i < 8 → ∃ v, -(1/10) ≤ v ∧ v ≤ 1/10 ∧
      (generateTensionArc 8 (fun _ => 0) 0).1.getD i 0 =
        max (3/10) (min (9/10)
          (1/2 + 2/5 * (1 - |(i : Rat) - (tensionPeak 8 : Rat)| / ((8 : Rat) / 2)) + v))) ∧
    (∀ v ∈ (generateTensionArc 8 (fun _ => 0) 0).1, 3/10 ≤ v ∧ v ≤ 9/10) ∧
    (tensionPeak 8 : Int) = ⌊(8 : Real) / ((1 + Real.sqrt 5) / 2)⌋) :=
  ⟨fun _ => ⟨le_refl 0, by norm_num⟩,
    claim_C6 8 (fun _ => 0) 0 (fun _ => ⟨le_refl 0, by norm_num⟩)⟩

end CityPop
